import Mathlib

/-!
Verification development for `src/nvidia_watch.py` (nvidia-job-watcher).

Python strings are embedded as `List Char`; machine-level I/O is made
explicit: the notified-store file is a `FileState`, the browser fetch
result is a parameter (a list of postings), and the SMTP send is an
oracle `Bool` saying whether `send_email` completes without raising.
Python exceptions that can escape the code under scrutiny are modelled
with `Except PyError`.
-/

deriving instance DecidableEq for Except

namespace NvidiaWatch

/-! ### Identifier extractor (`extract_job_id`)

`re.search(r"(JR\d+)", url)` scans the string left to right and at the
first position where `JR` is followed by at least one digit returns
`JR` plus the maximal run of digits.  Python's `\d` is modelled as an
ASCII decimal digit (`Char.isDigit`); the URLs this program handles are
ASCII. -/

/-- One attempted regex match of `JR\d+` anchored at the head of `l`. -/
def jrMatchAt (l : List Char) : Option (List Char) :=
  match l with
  | a :: b :: rest =>
      if a = 'J' ∧ b = 'R' then
        let ds := rest.takeWhile Char.isDigit
        if ds = [] then none else some ('J' :: 'R' :: ds)
      else none
  | _ => none

/-- Model of `re.search` for the pattern `(JR\d+)`: the leftmost match. -/
def jrSearch : List Char → Option (List Char)
  | [] => none
  | c :: rest =>
      match jrMatchAt (c :: rest) with
      | some m => some m
      | none => jrSearch rest

/-- Python `str.split(sep)` for a one-character separator: always returns a
non-empty list of (possibly empty) chunks. -/
def pySplit (sep : Char) : List Char → List (List Char)
  | [] => [[]]
  | c :: rest =>
      if c = sep then [] :: pySplit sep rest
      else
        match pySplit sep rest with
        | [] => [[c]]
        | p :: ps => (c :: p) :: ps

/-- The defensive fallback of `extract_job_id`:
`url.split("_")[-1].split("?")[0].split("-")[0]`. -/
def extract_fallback (url : List Char) : List Char :=
  let base1 := (pySplit '_' url).getLastD []
  let base2 := (pySplit '?' base1).headD []
  (pySplit '-' base2).headD []

/-- Model of `extract_job_id(url)` from `src/nvidia_watch.py`. -/
def extract_job_id (url : List Char) : List Char :=
  match jrSearch url with
  | some m => m
  | none => extract_fallback url

/-! ### Notified-set store (`load_notified_ids` / `save_notified_ids`) -/

/-- Python values that can live in the set built by `set(...)` here:
only hashable JSON scalars can be set members (lists and dicts raise
`TypeError`).  Python's cross-type numeric equality (`1 == True`) is not
modelled; the store only ever holds strings in normal operation.
JSON numbers are modelled as integers. -/
inductive PyScalar where
  | pnone
  | pbool (b : Bool)
  | pint (n : Int)
  | pstr (s : String)
deriving DecidableEq, Repr

/-- The Python exceptions that can escape `load_notified_ids` (its
`except` clause catches only `json.JSONDecodeError` and `OSError`). -/
inductive PyError where
  | attributeError
  | typeError
  | unicodeDecodeError
deriving DecidableEq, Repr

/-- A parsed JSON value, as produced by `json.load`. -/
inductive JVal where
  | jnull
  | jbool (b : Bool)
  | jnum (n : Int)
  | jstr (s : String)
  | jarr (elems : List JVal)
  | jobj (fields : List (String × JVal))

/-- Hashability check performed element-wise by `set(...)`. -/
def toScalar : JVal → Option PyScalar
  | .jnull => some .pnone
  | .jbool b => some (.pbool b)
  | .jnum n => some (.pint n)
  | .jstr s => some (.pstr s)
  | .jarr _ => none
  | .jobj _ => none

/-- Embedding of a scalar back into JSON, used by `json.dump`. -/
def scalarToJVal : PyScalar → JVal
  | .pnone => .jnull
  | .pbool b => .jbool b
  | .pint n => .jnum n
  | .pstr s => .jstr s

/-- Last binding of `key` in a field list (Python dicts built by
`json.load` keep the last of any duplicate keys). -/
def lookupLast (key : String) : List (String × JVal) → Option JVal
  | [] => none
  | (k, v) :: rest =>
      match lookupLast key rest with
      | some w => some w
      | none => if k = key then some v else none

/-- Python `data.get(key, dflt)` on a dict. -/
def dictGet (fields : List (String × JVal)) (key : String) (dflt : JVal) : JVal :=
  match lookupLast key fields with
  | some v => v
  | none => dflt

/-- Python `set(elems)` over the elements of a list: raises `TypeError`
at the first unhashable element. -/
def pySetOfElems : List JVal → Except PyError (Finset PyScalar)
  | [] => .ok ∅
  | v :: rest =>
      match toScalar v with
      | none => .error .typeError
      | some s =>
          match pySetOfElems rest with
          | .error e => .error e
          | .ok S => .ok (insert s S)

/-- Python `set(v)` on an arbitrary value: lists iterate their elements,
strings iterate their one-character substrings, dicts iterate their keys,
and everything else is not iterable (`TypeError`). -/
def pySet : JVal → Except PyError (Finset PyScalar)
  | .jarr xs => pySetOfElems xs
  | .jstr s => .ok (s.data.map (fun c => PyScalar.pstr (String.singleton c))).toFinset
  | .jobj fields => .ok (fields.map (fun f => PyScalar.pstr f.1)).toFinset
  | _ => .error .typeError

/-- The possible states of the store file `notified.json`. -/
inductive FileState where
  | absent
  | ioError
  | undecodable
  | malformed
  | parsed (v : JVal)

/-- Model of `load_notified_ids()`:
returns `set()` when the file is absent; `open`/read `OSError` and
`json.JSONDecodeError` are caught and yield `set()`; bytes that are not
valid UTF-8 raise `UnicodeDecodeError` inside `f.read()`, which the
`except (json.JSONDecodeError, OSError)` clause does not catch; on a
parsed value, `data.get("notified", [])` raises `AttributeError` unless
`data` is a dict, and `set(...)` may raise `TypeError`. -/
def load_notified_ids : FileState → Except PyError (Finset PyScalar)
  | .absent => .ok ∅
  | .ioError => .ok ∅
  | .undecodable => .error .unicodeDecodeError
  | .malformed => .ok ∅
  | .parsed v =>
      match v with
      | .jobj fields => pySet (dictGet fields "notified" (.jarr []))
      | _ => .error .attributeError

/-- A total order on scalars, fixing one concrete realisation of
Python's (implementation-defined) set iteration order. -/
def scalarLE : PyScalar → PyScalar → Prop
  | .pnone, _ => True
  | .pbool _, .pnone => False
  | .pbool a, .pbool b => a ≤ b
  | .pbool _, _ => True
  | .pint _, .pnone => False
  | .pint _, .pbool _ => False
  | .pint m, .pint n => m ≤ n
  | .pint _, .pstr _ => True
  | .pstr s, .pstr t => s ≤ t
  | .pstr _, _ => False

instance : DecidableRel scalarLE := by
  intro a b
  cases a <;> cases b <;> simp only [scalarLE] <;> infer_instance

instance : IsTrans PyScalar scalarLE := by
  constructor
  intro a b c hab hbc
  cases a <;> cases b <;> cases c <;> simp only [scalarLE] at * <;>
    first
      | trivial
      | exact le_trans hab hbc

instance : IsTotal PyScalar scalarLE := by
  constructor
  intro a b
  cases a <;> cases b <;> simp only [scalarLE] <;>
    first
      | trivial
      | exact le_total _ _

instance : IsAntisymm PyScalar scalarLE := by
  constructor
  intro a b hab hba
  cases a <;> cases b <;> simp only [scalarLE] at * <;>
    first
      | trivial
      | exact congrArg _ (le_antisymm hab hba)

/-- Model of `list(ids)`: Python set iteration in one fixed order. -/
def pyList (s : Finset PyScalar) : List PyScalar := s.sort scalarLE

/-- Model of `save_notified_ids(ids)`: overwrites the file with the
JSON dump of a one-field object holding the listed ids; the resulting
file parses back to exactly that object. -/
def save_notified_ids (ids : Finset PyScalar) : FileState :=
  .parsed (.jobj [("notified", .jarr ((pyList ids).map scalarToJVal))])

/-! ### Run orchestrator (`main`)

`get_today_jobs` is browser automation (an external collaborator); its
result is the `jobs` parameter.  `send_email`'s SMTP transport is an
external collaborator as well; whether the send completes without
raising (missing credentials, auth error, transport error) is the
`sendOk` oracle.  The pure formatting done by `send_email` is modelled
below. -/

/-- One scraped posting, as built in `get_today_jobs` with fields
title, url and posted; `get_attribute` may return `None`, hence the
`Option` in `url`. -/
structure Posting where
  title : String
  url : Option String
  posted : String
deriving DecidableEq, Repr

/-- Model of the expression taking `job` url `or` the empty string:
Python `or` yields the right operand on the falsy values `None` and
the empty string. -/
def urlOf (job : Posting) : String :=
  match job.url with
  | none => ""
  | some u => if u = "" then "" else u

/-- The id computed in the loop of `main`: `extract_job_id` applied to
the posting's url-or-empty-string. -/
def jobIdOf (job : Posting) : String :=
  ⟨extract_job_id (urlOf job).data⟩

/-- The classification test of the loop in `main`: `job_id not in notified`. -/
def isNewJob (notified : Finset PyScalar) (job : Posting) : Bool :=
  if PyScalar.pstr (jobIdOf job) ∈ notified then false else true

/-- The loop of `main` building `new_jobs` and `new_ids` by appending. -/
def classifyNew (jobs : List Posting) (notified : Finset PyScalar) :
    List Posting × List String :=
  jobs.foldl
    (fun acc job =>
      let job_id := jobIdOf job
      if PyScalar.pstr job_id ∈ notified then acc
      else (acc.1 ++ [job], acc.2 ++ [job_id]))
    ([], [])

/-- One per-posting block of the email body: title, recency label and
URL, each followed by a newline.  A missing `href` is the Python value
`None`, which the f-string renders as the four characters `None`. -/
def jobLine (job : Posting) : String :=
  job.title ++ "\n" ++ job.posted ++ "\n" ++
    (match job.url with
     | none => "None"
     | some u => u) ++ "\n"

/-- The `lines` list built by the loop in `send_email`. -/
def emailLines (new_jobs : List Posting) : List String :=
  new_jobs.foldl (fun acc job => acc ++ [jobLine job]) []

/-- The email body: the newline-join of `lines`. -/
def emailBody (new_jobs : List Posting) : String :=
  String.intercalate "\n" (emailLines new_jobs)

/-- The email subject line, stating the number of new postings. -/
def emailSubject (new_jobs : List Posting) : String :=
  "NVIDIA — " ++ toString new_jobs.length ++ " new job(s) posted today"

/-- Observable outcome of one run of `main`: the final state of the
store file, the argument of each `send_email` invocation (in order),
the set handed to `save_notified_ids` (if any), and whether the run
returned normally rather than via an uncaught exception. -/
structure RunResult where
  finalFile : FileState
  emails : List (List Posting)
  saved : Option (Finset PyScalar)
  ok : Bool

/-- Model of `main()`, as a function of the fetched postings, the store-file
state, and the send oracle.  A `False` oracle stands for any exception
raised inside `send_email`; an error escaping `load_notified_ids` also
aborts the run.  The store write itself is modelled as succeeding (a
write-time `OSError` would propagate, which the spec treats as a fatal
run failure outside this invariant's scope). -/
def main (jobs : List Posting) (fs : FileState) (sendOk : Bool) : RunResult :=
  if jobs.isEmpty then
    { finalFile := fs, emails := [], saved := none, ok := true }
  else
    match load_notified_ids fs with
    | .error _ =>
        { finalFile := fs, emails := [], saved := none, ok := false }
    | .ok notified =>
        let nw := classifyNew jobs notified
        if nw.1.isEmpty then
          { finalFile := fs, emails := [], saved := none, ok := true }
        else if sendOk then
          let merged := notified ∪ (nw.2.map PyScalar.pstr).toFinset
          { finalFile := save_notified_ids merged
            emails := [nw.1]
            saved := some merged
            ok := true }
        else
          { finalFile := fs, emails := [nw.1], saved := none, ok := false }

/-! ### Specification-side definitions

These do not come from the source; they name concepts the claims and
the spec talk about. -/

/-- The text after the last occurrence of `sep` (all of `l` if absent). -/
def afterLast (sep : Char) (l : List Char) : List Char :=
  (l.reverse.takeWhile (fun c => decide (c ≠ sep))).reverse

/-- The duplicate-marker-plus-query suffix the spec's invariance property
appends: `"-1?foo=bar"`. -/
def dupSuffix : List Char := ['-', '1', '?', 'f', 'o', 'o', '=', 'b', 'a', 'r']

/-- Whether the string contains a token of the form letter followed by a
digit (the spec's "letter-prefix + digits" token shape). -/
def hasLetterDigitToken : List Char → Bool
  | a :: b :: rest => (a.isAlpha && b.isDigit) || hasLetterDigitToken (b :: rest)
  | _ => false

/-- Whether a `JR`-digits token starts exactly at the head of `l`. -/
def jrTokenAt (l : List Char) : Bool :=
  match l with
  | a :: b :: d :: _ => a = 'J' && b = 'R' && d.isDigit
  | _ => false

/-- Whether a `JR`-digits token occurs anywhere in `l`. -/
def hasJRToken : List Char → Bool
  | [] => false
  | c :: rest => jrTokenAt (c :: rest) || hasJRToken rest

/-! ### List helper lemmas -/

theorem takeWhile_append_eval (p : Char → Bool) (a b : List Char) :
    (a ++ b).takeWhile p =
      if a.all p then a ++ b.takeWhile p else a.takeWhile p := by
  induction a with
  | nil => simp
  | cons c t ih =>
      by_cases hc : p c
      · by_cases ht : t.all p
        · simp [List.takeWhile_cons, hc, ht, ih]
        · simp [List.takeWhile_cons, hc, ht, ih]
      · simp [List.takeWhile_cons, hc]

theorem takeWhile_all (p : Char → Bool) (l : List Char) (h : l.all p = true) :
    l.takeWhile p = l := by
  induction l with
  | nil => rfl
  | cons c t ih =>
      simp only [List.all_cons, Bool.and_eq_true] at h
      simp [List.takeWhile_cons, h.1, ih h.2]

theorem pySplit_ne_nil (sep : Char) (l : List Char) : pySplit sep l ≠ [] := by
  induction l with
  | nil => simp [pySplit]
  | cons c t ih =>
      by_cases hc : c = sep
      · simp [pySplit, hc]
      · simp only [pySplit, if_neg hc]
        cases h : pySplit sep t with
        | nil => simp
        | cons p ps => simp

theorem headD_pySplit (sep : Char) (l : List Char) :
    (pySplit sep l).headD [] = l.takeWhile (fun c => decide (c ≠ sep)) := by
  induction l with
  | nil => rfl
  | cons c t ih =>
      by_cases hc : c = sep
      · simp [pySplit, hc, List.takeWhile_cons]
      · simp only [pySplit, if_neg hc]
        cases h : pySplit sep t with
        | nil => exact absurd h (pySplit_ne_nil sep t)
        | cons p ps =>
            rw [h] at ih
            rw [List.takeWhile_cons_of_pos (by simp [hc]), ← ih]
            rfl

theorem pySplit_of_not_mem (sep : Char) (l : List Char) (h : sep ∉ l) :
    pySplit sep l = [l] := by
  induction l with
  | nil => rfl
  | cons c t ih =>
      simp only [List.mem_cons, not_or] at h
      have hc : ¬ c = sep := fun hx => h.1 hx.symm
      simp [pySplit, hc, ih h.2]

theorem pySplit_length_of_mem (sep : Char) (l : List Char) (h : sep ∈ l) :
    2 ≤ (pySplit sep l).length := by
  induction l with
  | nil => cases h
  | cons c t ih =>
      by_cases hc : c = sep
      · have := pySplit_ne_nil sep t
        simp only [pySplit, if_pos hc, List.length_cons]
        have : 1 ≤ (pySplit sep t).length := by
          cases hx : pySplit sep t with
          | nil => exact absurd hx this
          | cons p ps => simp
        omega
      · have hmem : sep ∈ t := by
          rcases List.mem_cons.mp h with h1 | h2
          · exact absurd h1.symm hc
          · exact h2
        simp only [pySplit, if_neg hc]
        cases hx : pySplit sep t with
        | nil => exact absurd hx (pySplit_ne_nil sep t)
        | cons p ps =>
            have := ih hmem
            rw [hx] at this
            simpa using this

theorem getLastD_default_irrel {α : Type} (l : List α) (hl : l ≠ []) (a b : α) :
    l.getLastD a = l.getLastD b := by
  cases l with
  | nil => exact absurd rfl hl
  | cons x t =>
      cases t with
      | nil => rfl
      | cons y u => simp only [List.getLastD_cons]

theorem all_ne_of_not_mem (sep : Char) (l : List Char) (h : sep ∉ l) :
    l.all (fun x => decide (x ≠ sep)) = true := by
  rw [List.all_eq_true]
  intro x hx
  simp only [decide_eq_true_eq]
  intro hxe
  exact h (hxe ▸ hx)

theorem afterLast_of_mem_rev (sep : Char) (c : Char) (t : List Char)
    (h : sep ∈ t) :
    afterLast sep (c :: t) = afterLast sep t := by
  unfold afterLast
  rw [List.reverse_cons, takeWhile_append_eval]
  have hall : t.reverse.all (fun x => decide (x ≠ sep)) = false := by
    rw [List.all_eq_false]
    exact ⟨sep, List.mem_reverse.mpr h, by simp⟩
  rw [if_neg (by rw [hall]; exact Bool.false_ne_true)]

theorem afterLast_of_not_mem (sep : Char) (l : List Char) (h : sep ∉ l) :
    afterLast sep l = l := by
  unfold afterLast
  have hall : l.reverse.all (fun x => decide (x ≠ sep)) = true :=
    all_ne_of_not_mem sep l.reverse (fun hx => h (List.mem_reverse.mp hx))
  rw [takeWhile_all _ _ hall, List.reverse_reverse]

theorem getLastD_pySplit (sep : Char) (l : List Char) :
    (pySplit sep l).getLastD [] = afterLast sep l := by
  induction l with
  | nil => rfl
  | cons c t ih =>
      by_cases hc : c = sep
      · simp only [pySplit, if_pos hc, List.getLastD_cons]
        rw [ih, hc]
        by_cases hmem : sep ∈ t
        · rw [afterLast_of_mem_rev sep sep t hmem]
        · rw [afterLast_of_not_mem sep t hmem]
          unfold afterLast
          rw [List.reverse_cons, takeWhile_append_eval]
          have hall : t.reverse.all (fun x => decide (x ≠ sep)) = true :=
            all_ne_of_not_mem sep t.reverse (fun hx => hmem (List.mem_reverse.mp hx))
          have hwc : ([sep].takeWhile (fun x => decide (x ≠ sep))) = [] := by
            simp [List.takeWhile_cons]
          rw [if_pos hall, hwc, List.append_nil, List.reverse_reverse]
      · simp only [pySplit, if_neg hc]
        cases hx : pySplit sep t with
        | nil => exact absurd hx (pySplit_ne_nil sep t)
        | cons p ps =>
            by_cases hmem : sep ∈ t
            · have hlen := pySplit_length_of_mem sep t hmem
              rw [hx] at hlen
              have hps : ps ≠ [] := by
                cases ps with
                | nil => simp at hlen
                | cons _ _ => simp
              have h1 : ((c :: p) :: ps).getLastD [] = (p :: ps).getLastD [] := by
                rw [List.getLastD_cons, List.getLastD_cons]
                exact getLastD_default_irrel ps hps _ _
              rw [h1, ← hx, ih, afterLast_of_mem_rev sep c t hmem]
            · have hsplit := pySplit_of_not_mem sep t hmem
              rw [hsplit] at hx
              cases hx
              have hnotmem : sep ∉ (c :: t) := by
                simp only [List.mem_cons, not_or]
                exact ⟨fun hx => hc hx.symm, hmem⟩
              rw [afterLast_of_not_mem sep _ hnotmem]
              simp [List.getLastD_cons]

/-! ### Extractor lemmas -/

theorem extract_fallback_eq (url : List Char) :
    extract_fallback url =
      ((afterLast '_' url).takeWhile (fun c => decide (c ≠ '?'))).takeWhile
        (fun c => decide (c ≠ '-')) := by
  simp only [extract_fallback, getLastD_pySplit, headD_pySplit]

theorem dupSuffix_eq_str : dupSuffix = "-1?foo=bar".data := by decide

theorem afterLast_append_dup (u : List Char) :
    afterLast '_' (u ++ dupSuffix) = afterLast '_' u ++ dupSuffix := by
  unfold afterLast
  rw [List.reverse_append, takeWhile_append_eval]
  have hall : dupSuffix.reverse.all (fun x => decide (x ≠ '_')) = true := by decide
  rw [if_pos hall, List.reverse_append, List.reverse_reverse]

theorem fallback_append_dup (u : List Char) :
    extract_fallback (u ++ dupSuffix) = extract_fallback u := by
  rw [extract_fallback_eq, extract_fallback_eq, afterLast_append_dup]
  rw [takeWhile_append_eval]
  by_cases hq : (afterLast '_' u).all (fun c => decide (c ≠ '?'))
  · rw [if_pos hq, takeWhile_all _ _ hq]
    have hdq : dupSuffix.takeWhile (fun c => decide (c ≠ '?')) = ['-', '1'] := by
      decide
    rw [hdq, takeWhile_append_eval]
    by_cases hd : (afterLast '_' u).all (fun c => decide (c ≠ '-'))
    · rw [if_pos hd, takeWhile_all _ _ hd]
      simp
    · rw [if_neg hd]
  · rw [if_neg hq]

theorem takeWhile_digit_append_dup (rest : List Char) :
    (rest ++ dupSuffix).takeWhile Char.isDigit = rest.takeWhile Char.isDigit := by
  rw [takeWhile_append_eval]
  by_cases h : rest.all Char.isDigit
  · rw [if_pos h, takeWhile_all _ _ h]
    have hd : dupSuffix.takeWhile Char.isDigit = [] := by decide
    rw [hd, List.append_nil]
  · rw [if_neg h]

theorem jrMatchAt_append_dup (l : List Char) :
    jrMatchAt (l ++ dupSuffix) = jrMatchAt l := by
  cases l with
  | nil => decide
  | cons a l' =>
      cases l' with
      | nil =>
          show jrMatchAt (a :: dupSuffix) = jrMatchAt [a]
          unfold dupSuffix
          simp only [jrMatchAt]
          rw [if_neg (fun h => absurd h.2 (by decide))]
      | cons b rest =>
          show jrMatchAt (a :: b :: (rest ++ dupSuffix)) = jrMatchAt (a :: b :: rest)
          simp only [jrMatchAt]
          by_cases h : a = 'J' ∧ b = 'R'
          · rw [if_pos h, if_pos h, takeWhile_digit_append_dup]
          · rw [if_neg h, if_neg h]

theorem jrSearch_append_dup (u : List Char) :
    jrSearch (u ++ dupSuffix) = jrSearch u := by
  induction u with
  | nil => decide
  | cons c t ih =>
      show jrSearch (c :: (t ++ dupSuffix)) = jrSearch (c :: t)
      simp only [jrSearch]
      rw [← List.cons_append, jrMatchAt_append_dup]
      cases h : jrMatchAt (c :: t) with
      | some m => rfl
      | none => exact ih

theorem extract_job_id_append_dup (u : List Char) :
    extract_job_id (u ++ dupSuffix) = extract_job_id u := by
  unfold extract_job_id
  rw [jrSearch_append_dup]
  cases h : jrSearch u with
  | some m => rfl
  | none => exact fallback_append_dup u

theorem dropWhile_head_false (p : Char → Bool) (l : List Char) (c : Char)
    (h : (l.dropWhile p).head? = some c) : p c = false := by
  induction l with
  | nil => cases h
  | cons x Ys ih =>
      by_cases hx : p x
      · rw [List.dropWhile_cons_of_pos hx] at h
        exact ih h
      · rw [List.dropWhile_cons_of_neg hx] at h
        cases h
        exact Bool.of_not_eq_true hx

theorem all_takeWhile (p : Char → Bool) (l : List Char) :
    (l.takeWhile p).all p = true := by
  rw [List.all_eq_true]
  intro x hx
  exact List.mem_takeWhile_imp hx

theorem jrMatchAt_none_iff (l : List Char) :
    jrMatchAt l = none ↔ jrTokenAt l = false := by
  cases l with
  | nil => simp [jrMatchAt, jrTokenAt]
  | cons a l' =>
      cases l' with
      | nil => simp [jrMatchAt, jrTokenAt]
      | cons b rest =>
          cases rest with
          | nil =>
              simp only [jrMatchAt, jrTokenAt, List.takeWhile_nil]
              by_cases h : a = 'J' ∧ b = 'R'
              · rw [if_pos h]
                simp
              · rw [if_neg h]
                simp
          | cons d ds =>
              simp only [jrMatchAt, jrTokenAt]
              by_cases h : a = 'J' ∧ b = 'R'
              · rw [if_pos h]
                by_cases hd : d.isDigit
                · rw [List.takeWhile_cons_of_pos hd]
                  simp [h.1, h.2, hd]
                · rw [List.takeWhile_cons_of_neg hd]
                  simp [h.1, h.2, Bool.of_not_eq_true hd]
              · rw [if_neg h]
                constructor
                · intro _
                  rcases not_and_or.mp h with h1 | h2
                  · simp [decide_eq_true_eq, h1]
                  · simp [decide_eq_true_eq, h2]
                · intro _
                  rfl

theorem jrMatchAt_some_inv (l : List Char) (m : List Char)
    (h : jrMatchAt l = some m) :
    ∃ ds rest, l = 'J' :: 'R' :: (ds ++ rest) ∧ ds ≠ [] ∧
      ds.all Char.isDigit = true ∧
      (∀ c, rest.head? = some c → c.isDigit = false) ∧
      m = 'J' :: 'R' :: ds := by
  cases l with
  | nil => cases h
  | cons a l' =>
      cases l' with
      | nil => cases h
      | cons b rest' =>
          simp only [jrMatchAt] at h
          by_cases hJR : a = 'J' ∧ b = 'R'
          · rw [if_pos hJR] at h
            by_cases hds : rest'.takeWhile Char.isDigit = []
            · rw [if_pos hds] at h
              cases h
            · rw [if_neg hds] at h
              refine ⟨rest'.takeWhile Char.isDigit, rest'.dropWhile Char.isDigit,
                ?_, hds, all_takeWhile _ _, ?_, ?_⟩
              · rw [List.takeWhile_append_dropWhile, hJR.1, hJR.2]
              · intro c hc
                exact dropWhile_head_false Char.isDigit rest' c hc
              · cases h
                rfl
          · rw [if_neg hJR] at h
            cases h

/-- Soundness and leftmost-maximality of `jrSearch`: a successful search
decomposes the input around the leftmost `JR`-digits token, the matched
digit run is maximal, and the match is `JR` plus that run. -/
theorem jrSearch_some_spec (u : List Char) (m : List Char)
    (h : jrSearch u = some m) :
    ∃ p ds rest, u = p ++ 'J' :: 'R' :: (ds ++ rest) ∧ ds ≠ [] ∧
      ds.all Char.isDigit = true ∧
      (∀ c, rest.head? = some c → c.isDigit = false) ∧
      (∀ q, jrTokenAt (u.drop q) = true → p.length ≤ q) ∧
      m = 'J' :: 'R' :: ds := by
  induction u with
  | nil => cases h
  | cons c t ih =>
      simp only [jrSearch] at h
      cases hm : jrMatchAt (c :: t) with
      | some m0 =>
          obtain ⟨ds, rest, heq, hne, hall, hhead, hmeq⟩ :=
            jrMatchAt_some_inv (c :: t) m0 hm
          rw [hm] at h
          have hsome : some m0 = some m := h
          cases hsome
          exact ⟨[], ds, rest, by simpa using heq, hne, hall, hhead,
            fun q _ => Nat.zero_le q, hmeq⟩
      | none =>
          rw [hm] at h
          obtain ⟨p, ds, rest, heq, hne, hall, hhead, hleft, hmeq⟩ := ih h
          refine ⟨c :: p, ds, rest, by simp [heq], hne, hall, hhead, ?_, hmeq⟩
          intro q hq
          cases q with
          | zero =>
              rw [List.drop_zero] at hq
              rw [(jrMatchAt_none_iff (c :: t)).mp hm] at hq
              cases hq
          | succ q' =>
              have : jrTokenAt (t.drop q') = true := by
                simpa using hq
              simpa using Nat.succ_le_succ (hleft q' this)

theorem jrSearch_none_iff (u : List Char) :
    jrSearch u = none ↔ hasJRToken u = false := by
  induction u with
  | nil => simp [jrSearch, hasJRToken]
  | cons c t ih =>
      simp only [jrSearch, hasJRToken]
      cases hm : jrMatchAt (c :: t) with
      | some m0 =>
          have : jrTokenAt (c :: t) = true := by
            rcases hb : jrTokenAt (c :: t) with _ | _
            · exact absurd ((jrMatchAt_none_iff (c :: t)).mpr hb)
                (by simp [hm])
            · rfl
          simp [this]
      | none =>
          have hb : jrTokenAt (c :: t) = false := (jrMatchAt_none_iff (c :: t)).mp hm
          simp [hb, ih]

/-! ### Store lemmas -/

theorem pySetOfElems_map_scalar (L : List PyScalar) :
    pySetOfElems (L.map scalarToJVal) = .ok L.toFinset := by
  induction L with
  | nil => rfl
  | cons s t ih =>
      have hts : toScalar (scalarToJVal s) = some s := by cases s <;> rfl
      simp only [List.map_cons, pySetOfElems, hts, ih, List.toFinset_cons]

theorem load_save_roundtrip (S : Finset PyScalar) :
    load_notified_ids (save_notified_ids S) = .ok S := by
  have h1 : load_notified_ids (save_notified_ids S) =
      pySetOfElems ((pyList S).map scalarToJVal) := rfl
  rw [h1, pySetOfElems_map_scalar]
  unfold pyList
  rw [Finset.sort_toFinset]

/-! ### Claims about the extractor and the store -/

/-- Claim C2: for every URL string containing a letter-prefix-digits
token, job-id extraction is invariant to appending a `-1` duplicate
suffix plus a query string: `extract(url) = extract(url + "-1?foo=bar")`.
(The proof does not even need the token hypothesis; the invariance is
unconditional.) -/
theorem claim_C2_extract_append_invariant (url : List Char)
    (h : hasLetterDigitToken url = true) :
    extract_job_id url = extract_job_id (url ++ "-1?foo=bar".data) := by
  rw [← dupSuffix_eq_str, extract_job_id_append_dup]

theorem claim_C2_witness :
    hasLetterDigitToken "x_AB123".data = true ∧
    extract_job_id "x_AB123".data =
      extract_job_id ("x_AB123".data ++ "-1?foo=bar".data) :=
  ⟨by decide, claim_C2_extract_append_invariant "x_AB123".data (by decide)⟩

/-- Claim C3 (counterexample): the store file containing `[]` — valid
JSON that is not an object — makes `load_notified_ids` raise an
`AttributeError` (at `data.get`) instead of returning the empty set:
the `except` clause catches only `json.JSONDecodeError` and `OSError`. -/
theorem claim_C3_counterexample :
    load_notified_ids (.parsed (.jarr [])) = .error .attributeError ∧
    load_notified_ids (.parsed (.jarr [])) ≠ .ok ∅ :=
  ⟨rfl, by decide⟩

/-- Claim C3 (amended): `load_notified_ids` returns the empty set and
raises nothing when the file is absent, unreadable via `OSError`, or not
parseable as JSON; but content parsing to a non-object JSON value raises
`AttributeError`, bytes that are not valid UTF-8 raise
`UnicodeDecodeError`, and an object whose `"notified"` value is not
iterable raises `TypeError`. -/
theorem claim_C3_amended :
    load_notified_ids .absent = .ok ∅ ∧
    load_notified_ids .ioError = .ok ∅ ∧
    load_notified_ids .malformed = .ok ∅ ∧
    load_notified_ids .undecodable = .error .unicodeDecodeError ∧
    load_notified_ids (.parsed (.jobj [("notified", .jnum 5)])) =
      .error .typeError ∧
    (∀ v : JVal, (∀ fields, v ≠ .jobj fields) →
      load_notified_ids (.parsed v) = .error .attributeError) := by
  refine ⟨rfl, rfl, rfl, rfl, rfl, ?_⟩
  intro v hv
  cases v with
  | jobj fields => exact absurd rfl (hv fields)
  | jnull => rfl
  | jbool b => rfl
  | jnum n => rfl
  | jstr s => rfl
  | jarr xs => rfl

theorem claim_C3_amended_witness :
    load_notified_ids (.parsed (.jstr "oops")) = .error .attributeError :=
  claim_C3_amended.2.2.2.2.2 (.jstr "oops") (fun _ h => JVal.noConfusion h)

/-- Claim C4: saving any set of identifier strings and loading it back
yields an equal set. -/
theorem claim_C4_roundtrip (S : Finset String) :
    load_notified_ids (save_notified_ids (S.image PyScalar.pstr)) =
      .ok (S.image PyScalar.pstr) :=
  load_save_roundtrip (S.image PyScalar.pstr)

/-- Claim C5: the two URL examples from the spec extract to `JR2005814`
and `JR2004391` respectively. -/
theorem claim_C5_examples :
    extract_job_id ("https://nvidia.wd5.myworkdayjobs.com/NVIDIAExternalCareerSite_JR2005814-1?locationHierarchy=2fcb99c455831013ea52bbe14cf9326c".data) =
      "JR2005814".data ∧
    extract_job_id ("https://nvidia.wd5.myworkdayjobs.com/NVIDIAExternalCareerSite_JR2004391?locationHierarchy=2fcb99c455831013ea52bbe14cf9326c".data) =
      "JR2004391".data := by
  constructor <;> decide

/-- Claim C10: whenever the URL contains a `JR`-digits token anywhere
(including inside the query string), `extract_job_id` returns the
leftmost maximal such token; the fallback splitting rule applies exactly
when no such token occurs. -/
theorem claim_C10_leftmost_maximal (url : List Char) :
    (hasJRToken url = true →
      ∃ p ds rest, url = p ++ 'J' :: 'R' :: (ds ++ rest) ∧ ds ≠ [] ∧
        ds.all Char.isDigit = true ∧
        (∀ c, rest.head? = some c → c.isDigit = false) ∧
        (∀ q, jrTokenAt (url.drop q) = true → p.length ≤ q) ∧
        extract_job_id url = 'J' :: 'R' :: ds) ∧
    (hasJRToken url = false → extract_job_id url = extract_fallback url) := by
  constructor
  · intro h
    cases hs : jrSearch url with
    | none =>
        rw [(jrSearch_none_iff url).mp hs] at h
        cases h
    | some m =>
        obtain ⟨p, ds, rest, heq, hne, hall, hhead, hleft, hmeq⟩ :=
          jrSearch_some_spec url m hs
        refine ⟨p, ds, rest, heq, hne, hall, hhead, hleft, ?_⟩
        unfold extract_job_id
        rw [hs, hmeq]
  · intro h
    have hs : jrSearch url = none := (jrSearch_none_iff url).mpr h
    unfold extract_job_id
    rw [hs]

theorem claim_C10_witness :
    hasJRToken "x?q=JR12-3".data = true ∧
    (∃ p ds rest, ("x?q=JR12-3".data : List Char) =
        p ++ 'J' :: 'R' :: (ds ++ rest) ∧ ds ≠ [] ∧
      ds.all Char.isDigit = true ∧
      (∀ c, rest.head? = some c → c.isDigit = false) ∧
      (∀ q, jrTokenAt (("x?q=JR12-3".data : List Char).drop q) = true →
        p.length ≤ q) ∧
      extract_job_id "x?q=JR12-3".data = 'J' :: 'R' :: ds) :=
  ⟨by decide, (claim_C10_leftmost_maximal "x?q=JR12-3".data).1 (by decide)⟩

/-! ### Orchestrator lemmas -/

theorem classify_foldl (notified : Finset PyScalar) (jobs : List Posting)
    (acc : List Posting × List String) :
    jobs.foldl
      (fun acc job =>
        let job_id := jobIdOf job
        if PyScalar.pstr job_id ∈ notified then acc
        else (acc.1 ++ [job], acc.2 ++ [job_id]))
      acc =
    (acc.1 ++ jobs.filter (isNewJob notified),
     acc.2 ++ (jobs.filter (isNewJob notified)).map jobIdOf) := by
  induction jobs generalizing acc with
  | nil => simp
  | cons j t ih =>
      rw [List.foldl_cons, ih]
      by_cases hmem : PyScalar.pstr (jobIdOf j) ∈ notified
      · have hnew : isNewJob notified j = false := by simp [isNewJob, hmem]
        simp [List.filter_cons, hnew, hmem]
      · have hnew : isNewJob notified j = true := by simp [isNewJob, hmem]
        simp [List.filter_cons, hnew, hmem]

theorem classifyNew_eq (jobs : List Posting) (notified : Finset PyScalar) :
    classifyNew jobs notified =
      (jobs.filter (isNewJob notified),
       (jobs.filter (isNewJob notified)).map jobIdOf) := by
  unfold classifyNew
  rw [classify_foldl]
  simp

theorem emailLines_foldl (new_jobs : List Posting) (acc : List String) :
    new_jobs.foldl (fun acc job => acc ++ [jobLine job]) acc =
      acc ++ new_jobs.map jobLine := by
  induction new_jobs generalizing acc with
  | nil => simp
  | cons j t ih => simp [ih]

theorem emailLines_eq (new_jobs : List Posting) :
    emailLines new_jobs = new_jobs.map jobLine := by
  unfold emailLines
  rw [emailLines_foldl]
  simp

theorem main_eq_of_load (jobs : List Posting) (fs : FileState) (sendOk : Bool)
    (notified : Finset PyScalar) (hjobs : jobs ≠ [])
    (hload : load_notified_ids fs = .ok notified) :
    main jobs fs sendOk =
      (if (classifyNew jobs notified).1.isEmpty then
        { finalFile := fs, emails := [], saved := none, ok := true }
      else if sendOk then
        { finalFile := save_notified_ids
            (notified ∪ ((classifyNew jobs notified).2.map PyScalar.pstr).toFinset)
          emails := [(classifyNew jobs notified).1]
          saved := some
            (notified ∪ ((classifyNew jobs notified).2.map PyScalar.pstr).toFinset)
          ok := true }
      else
        { finalFile := fs, emails := [(classifyNew jobs notified).1],
          saved := none, ok := false }) := by
  unfold main
  rw [if_neg (by simpa using hjobs), hload]

theorem length_filter_two {α : Type} (p : α → Bool) (l : List α)
    (i k : Fin l.length) (hik : (i : ℕ) < (k : ℕ))
    (hpi : p (l.get i) = true) (hpk : p (l.get k) = true) :
    2 ≤ (l.filter p).length := by
  have hki : (↑i + 1 : ℕ) ≤ ↑k := hik
  have h1 : 0 < (l.take (↑i + 1)).countP p := by
    rw [List.countP_pos]
    refine ⟨l.get i, ?_, hpi⟩
    have hlen : (↑i : ℕ) < (l.take (↑i + 1)).length := by
      simp only [List.length_take]
      exact lt_min (Nat.lt_succ_self _) i.2
    have : (l.take (↑i + 1)).get ⟨↑i, hlen⟩ = l.get i := by
      simp [List.getElem_take]
    rw [← this]
    exact List.get_mem _ _ _
  have h2 : 0 < (l.drop (↑i + 1)).countP p := by
    rw [List.countP_pos]
    refine ⟨l.get k, ?_, hpk⟩
    have hk2 : (↑k : ℕ) < l.length := k.2
    have hlen : (↑k - (↑i + 1) : ℕ) < (l.drop (↑i + 1)).length := by
      simp only [List.length_drop]
      omega
    have heq : (l.drop (↑i + 1)).get ⟨↑k - (↑i + 1), hlen⟩ = l.get k := by
      simp only [List.get_eq_getElem, List.getElem_drop]
      congr 1
      omega
    rw [← heq]
    exact List.get_mem _ _ _
  have hsum : l.countP p =
      (l.take (↑i + 1)).countP p + (l.drop (↑i + 1)).countP p := by
    rw [← List.countP_append, List.take_append_drop]
  have h3 : 2 ≤ l.countP p := by omega
  rw [List.countP_eq_length_filter] at h3
  exact h3

/-! ### Claims about the orchestrator -/

/-- Claim C1: the persisted store is updated iff a notification was
successfully dispatched for at least one new posting.  If `send_email`
raises (oracle `false`), the run leaves the store file unchanged and
never calls `save_notified_ids`; if it succeeds on a non-empty
new-posting list, the store is saved with exactly the new ids merged
into the loaded set; and conversely any run that does save must be a
successful send of a non-empty digest. -/
theorem claim_C1_store_iff_successful_send (jobs : List Posting)
    (fs : FileState) (sendOk : Bool) :
    (sendOk = false → (main jobs fs sendOk).finalFile = fs ∧
      (main jobs fs sendOk).saved = none) ∧
    (∀ notified, load_notified_ids fs = .ok notified →
      (classifyNew jobs notified).1 ≠ [] → sendOk = true →
      (main jobs fs sendOk).saved =
        some (notified ∪
          ((classifyNew jobs notified).2.map PyScalar.pstr).toFinset) ∧
      (main jobs fs sendOk).finalFile =
        save_notified_ids (notified ∪
          ((classifyNew jobs notified).2.map PyScalar.pstr).toFinset)) ∧
    ((main jobs fs sendOk).saved.isSome = true →
      sendOk = true ∧ ∃ notified, load_notified_ids fs = .ok notified ∧
        (classifyNew jobs notified).1 ≠ [] ∧
        (main jobs fs sendOk).emails = [(classifyNew jobs notified).1]) := by
  refine ⟨?_, ?_, ?_⟩
  · intro hsend
    subst hsend
    by_cases hj : jobs.isEmpty
    · simp [main, hj]
    · cases hl : load_notified_ids fs with
      | error e => simp [main, hj, hl]
      | ok notified =>
          rw [main_eq_of_load jobs fs false notified
            (by simpa using hj) hl]
          by_cases hn : (classifyNew jobs notified).1.isEmpty
          · simp [hn]
          · simp [hn]
  · intro notified hload hne hsend
    subst hsend
    have hjobs : jobs ≠ [] := by
      intro hj
      subst hj
      exact hne rfl
    rw [main_eq_of_load jobs fs true notified hjobs hload]
    rw [if_neg (by simpa using hne)]
    exact ⟨rfl, rfl⟩
  · intro hsaved
    by_cases hj : jobs.isEmpty
    · simp [main, hj] at hsaved
    · cases hl : load_notified_ids fs with
      | error e => simp [main, hj, hl] at hsaved
      | ok notified =>
          rw [main_eq_of_load jobs fs sendOk notified
            (by simpa using hj) hl] at hsaved ⊢
          by_cases hn : (classifyNew jobs notified).1.isEmpty
          · rw [if_pos hn] at hsaved
            simp at hsaved
          · rw [if_neg hn] at hsaved ⊢
            cases sendOk with
            | false => simp at hsaved
            | true => exact ⟨rfl, notified, rfl, by simpa using hn, rfl⟩

theorem claim_C1_witness :
    ((main [⟨"t", some "x_JR9", "Today"⟩] FileState.absent false).finalFile =
        FileState.absent ∧
      (main [⟨"t", some "x_JR9", "Today"⟩] FileState.absent false).saved =
        none) ∧
    ((main [⟨"t", some "x_JR9", "Today"⟩] FileState.absent true).saved =
        some (∅ ∪
          ((classifyNew [⟨"t", some "x_JR9", "Today"⟩] ∅).2.map
            PyScalar.pstr).toFinset) ∧
      (main [⟨"t", some "x_JR9", "Today"⟩] FileState.absent true).finalFile =
        save_notified_ids (∅ ∪
          ((classifyNew [⟨"t", some "x_JR9", "Today"⟩] ∅).2.map
            PyScalar.pstr).toFinset)) ∧
    (true = true ∧ ∃ notified,
      load_notified_ids FileState.absent = .ok notified ∧
      (classifyNew [⟨"t", some "x_JR9", "Today"⟩] notified).1 ≠ [] ∧
      (main [⟨"t", some "x_JR9", "Today"⟩] FileState.absent true).emails =
        [(classifyNew [⟨"t", some "x_JR9", "Today"⟩] notified).1]) :=
  ⟨(claim_C1_store_iff_successful_send _ _ false).1 rfl,
   (claim_C1_store_iff_successful_send _ _ true).2.1 ∅ rfl (by decide) rfl,
   (claim_C1_store_iff_successful_send _ _ true).2.2 (by decide)⟩

/-- Claim C6: early exits have no side effects.  With zero fetched
postings, or with every fetched posting's id already in the loaded set,
the run ends successfully with no email sent and no store write. -/
theorem claim_C6_early_exits (jobs : List Posting) (fs : FileState)
    (sendOk : Bool) :
    (jobs = [] →
      main jobs fs sendOk =
        { finalFile := fs, emails := [], saved := none, ok := true }) ∧
    (∀ notified, load_notified_ids fs = .ok notified →
      (∀ j ∈ jobs, PyScalar.pstr (jobIdOf j) ∈ notified) →
      main jobs fs sendOk =
        { finalFile := fs, emails := [], saved := none, ok := true }) := by
  constructor
  · intro h
    subst h
    rfl
  · intro notified hload hall
    by_cases hj : jobs = []
    · subst hj
      rfl
    · rw [main_eq_of_load jobs fs sendOk notified hj hload]
      have hemp : (classifyNew jobs notified).1 = [] := by
        rw [classifyNew_eq]
        simp only [List.filter_eq_nil_iff]
        intro a ha
        simp [isNewJob, hall a ha]
      rw [if_pos (by simp [hemp])]

theorem claim_C6_witness :
    main [] FileState.absent false =
      { finalFile := FileState.absent, emails := [], saved := none,
        ok := true } ∧
    main [⟨"t", some "x_JR9", "Today"⟩]
        (FileState.parsed (.jobj [("notified", .jarr [.jstr "JR9"])])) true =
      { finalFile :=
          FileState.parsed (.jobj [("notified", .jarr [.jstr "JR9"])]),
        emails := [], saved := none, ok := true } :=
  ⟨(claim_C6_early_exits [] FileState.absent false).1 rfl,
   (claim_C6_early_exits [⟨"t", some "x_JR9", "Today"⟩]
      (FileState.parsed (.jobj [("notified", .jarr [.jstr "JR9"])])) true).2
      {PyScalar.pstr "JR9"} (by decide) (by decide)⟩

/-- Claim C7: with a non-empty new partition, `send_email` is invoked
exactly once, with the full list of new postings in fetch order (the
in-order filter of the fetched list); the digest's subject states the
count of new postings and its body is the newline-join of per-posting
blocks of title, recency label and URL, each block ending in a newline
(hence blank lines between postings). -/
theorem claim_C7_digest_once (jobs : List Posting) (fs : FileState)
    (sendOk : Bool) (notified : Finset PyScalar)
    (hload : load_notified_ids fs = .ok notified)
    (hne : (classifyNew jobs notified).1 ≠ []) :
    (main jobs fs sendOk).emails = [(classifyNew jobs notified).1] ∧
    (classifyNew jobs notified).1 = jobs.filter (isNewJob notified) ∧
    emailSubject (classifyNew jobs notified).1 =
      "NVIDIA — " ++ toString (classifyNew jobs notified).1.length ++
        " new job(s) posted today" ∧
    emailBody (classifyNew jobs notified).1 =
      String.intercalate "\n" ((classifyNew jobs notified).1.map jobLine) := by
  have hjobs : jobs ≠ [] := by
    intro hj
    subst hj
    exact hne rfl
  refine ⟨?_, ?_, rfl, ?_⟩
  · rw [main_eq_of_load jobs fs sendOk notified hjobs hload,
      if_neg (by simpa using hne)]
    cases sendOk <;> rfl
  · rw [classifyNew_eq]
  · unfold emailBody
    rw [emailLines_eq]

theorem claim_C7_witness :
    (main [⟨"t", some "x_JR9", "Today"⟩] FileState.absent true).emails =
      [(classifyNew [⟨"t", some "x_JR9", "Today"⟩] ∅).1] ∧
    (classifyNew [⟨"t", some "x_JR9", "Today"⟩] ∅).1 =
      [⟨"t", some "x_JR9", "Today"⟩].filter (isNewJob ∅) ∧
    emailSubject (classifyNew [⟨"t", some "x_JR9", "Today"⟩] ∅).1 =
      "NVIDIA — " ++
        toString (classifyNew [⟨"t", some "x_JR9", "Today"⟩] ∅).1.length ++
        " new job(s) posted today" ∧
    emailBody (classifyNew [⟨"t", some "x_JR9", "Today"⟩] ∅).1 =
      String.intercalate "\n"
        ((classifyNew [⟨"t", some "x_JR9", "Today"⟩] ∅).1.map jobLine) :=
  claim_C7_digest_once [⟨"t", some "x_JR9", "Today"⟩] FileState.absent true ∅
    rfl (by decide)

/-- Claim C8: the notified set grows monotonically — whatever set is
passed to `save_notified_ids` during a run is a superset of the set
`load_notified_ids` returned at the start of that run. -/
theorem claim_C8_monotone (jobs : List Posting) (fs : FileState)
    (sendOk : Bool) (S notified : Finset PyScalar)
    (hload : load_notified_ids fs = .ok notified)
    (hsave : (main jobs fs sendOk).saved = some S) :
    notified ⊆ S := by
  by_cases hj : jobs = []
  · subst hj
    simp [main] at hsave
  · rw [main_eq_of_load jobs fs sendOk notified hj hload] at hsave
    by_cases hemp : (classifyNew jobs notified).1.isEmpty
    · rw [if_pos hemp] at hsave
      simp at hsave
    · rw [if_neg hemp] at hsave
      cases sendOk with
      | false => simp at hsave
      | true =>
          simp only [if_true] at hsave
          have hS : S = notified ∪
              ((classifyNew jobs notified).2.map PyScalar.pstr).toFinset := by
            cases hsave
            rfl
          rw [hS]
          exact Finset.subset_union_left

theorem claim_C8_witness :
    (∅ : Finset PyScalar) ⊆ {PyScalar.pstr "JR9"} :=
  claim_C8_monotone [⟨"t", some "x_JR9", "Today"⟩] FileState.absent true
    {PyScalar.pstr "JR9"} ∅ rfl (by decide)

/-- Claim C9: two fetched postings carrying the same not-yet-notified
JobID are both classified new and both counted in the single digest
(the emailed list is the in-order filter, which keeps two or more
entries), while the persisted store records that JobID exactly once. -/
theorem claim_C9_duplicate_ids (jobs : List Posting) (fs : FileState)
    (notified : Finset PyScalar) (x : String)
    (i k : Fin jobs.length)
    (hload : load_notified_ids fs = .ok notified)
    (hik : (i : ℕ) < (k : ℕ))
    (hxi : jobIdOf (jobs.get i) = x) (hxk : jobIdOf (jobs.get k) = x)
    (hnew : PyScalar.pstr x ∉ notified) :
    jobs.get i ∈ (classifyNew jobs notified).1 ∧
    jobs.get k ∈ (classifyNew jobs notified).1 ∧
    2 ≤ (classifyNew jobs notified).1.length ∧
    (main jobs fs true).emails = [(classifyNew jobs notified).1] ∧
    (∃ S, (main jobs fs true).saved = some S ∧
      (main jobs fs true).finalFile = save_notified_ids S ∧
      (pyList S).count (PyScalar.pstr x) = 1) := by
  have hpi : isNewJob notified (jobs.get i) = true := by
    unfold isNewJob
    rw [hxi, if_neg hnew]
  have hpk : isNewJob notified (jobs.get k) = true := by
    unfold isNewJob
    rw [hxk, if_neg hnew]
  have hmemi : jobs.get i ∈ jobs.filter (isNewJob notified) :=
    List.mem_filter.mpr ⟨List.get_mem _ _ _, hpi⟩
  have hmemk : jobs.get k ∈ jobs.filter (isNewJob notified) :=
    List.mem_filter.mpr ⟨List.get_mem _ _ _, hpk⟩
  have hcl := classifyNew_eq jobs notified
  have hne : (classifyNew jobs notified).1 ≠ [] := by
    rw [hcl]
    exact List.ne_nil_of_mem hmemi
  have hjobs : jobs ≠ [] := by
    intro hj
    subst hj
    exact hne rfl
  have hrun := main_eq_of_load jobs fs true notified hjobs hload
  rw [if_neg (by simpa using hne)] at hrun
  simp only [if_true] at hrun
  refine ⟨by rw [hcl]; exact hmemi, by rw [hcl]; exact hmemk, ?_, ?_, ?_⟩
  · rw [hcl]
    exact length_filter_two (isNewJob notified) jobs i k hik hpi hpk
  · rw [hrun]
  · refine ⟨notified ∪
      ((classifyNew jobs notified).2.map PyScalar.pstr).toFinset,
      by rw [hrun], by rw [hrun], ?_⟩
    have hxm : PyScalar.pstr x ∈ notified ∪
        ((classifyNew jobs notified).2.map PyScalar.pstr).toFinset := by
      rw [Finset.mem_union]
      right
      rw [List.mem_toFinset, hcl]
      exact List.mem_map.mpr ⟨jobIdOf (jobs.get i),
        List.mem_map.mpr ⟨jobs.get i, hmemi, rfl⟩, by rw [hxi]⟩
    have hnodup : (pyList (notified ∪
        ((classifyNew jobs notified).2.map PyScalar.pstr).toFinset)).Nodup :=
      Finset.sort_nodup scalarLE _
    have hmemS : PyScalar.pstr x ∈ pyList (notified ∪
        ((classifyNew jobs notified).2.map PyScalar.pstr).toFinset) :=
      (Finset.mem_sort scalarLE).mpr hxm
    exact List.count_eq_one_of_mem hnodup hmemS

theorem claim_C9_witness :
    ([⟨"a", some "x_JR9", "Today"⟩, ⟨"b", some "y_JR9-1", "Today"⟩].get
        ⟨0, by decide⟩ ∈
      (classifyNew [⟨"a", some "x_JR9", "Today"⟩,
        ⟨"b", some "y_JR9-1", "Today"⟩] ∅).1) ∧
    ([⟨"a", some "x_JR9", "Today"⟩, ⟨"b", some "y_JR9-1", "Today"⟩].get
        ⟨1, by decide⟩ ∈
      (classifyNew [⟨"a", some "x_JR9", "Today"⟩,
        ⟨"b", some "y_JR9-1", "Today"⟩] ∅).1) ∧
    2 ≤ (classifyNew [⟨"a", some "x_JR9", "Today"⟩,
        ⟨"b", some "y_JR9-1", "Today"⟩] ∅).1.length ∧
    (main [⟨"a", some "x_JR9", "Today"⟩, ⟨"b", some "y_JR9-1", "Today"⟩]
        FileState.absent true).emails =
      [(classifyNew [⟨"a", some "x_JR9", "Today"⟩,
        ⟨"b", some "y_JR9-1", "Today"⟩] ∅).1] ∧
    (∃ S, (main [⟨"a", some "x_JR9", "Today"⟩, ⟨"b", some "y_JR9-1", "Today"⟩]
        FileState.absent true).saved = some S ∧
      (main [⟨"a", some "x_JR9", "Today"⟩, ⟨"b", some "y_JR9-1", "Today"⟩]
        FileState.absent true).finalFile = save_notified_ids S ∧
      (pyList S).count (PyScalar.pstr "JR9") = 1) :=
  claim_C9_duplicate_ids
    [⟨"a", some "x_JR9", "Today"⟩, ⟨"b", some "y_JR9-1", "Today"⟩]
    FileState.absent ∅ "JR9" ⟨0, by decide⟩ ⟨1, by decide⟩ rfl (by decide)
    (by decide) (by decide) (by decide)

end NvidiaWatch
